import Mathlib

/-!
# Verification of the snowflake id generator (`src/snowflake.rs`)

A shallow embedding of the generator: machine integers are modelled by
`Nat` (`u64`, values below `2 ^ 64`) and `Int` (`i64`), with two's-complement
wrap-around (`wrap64`, `% 2 ^ 64`) made explicit exactly where the Rust
arithmetic can overflow.  The mutable `AtomicI64` register is threaded
explicitly: a concurrent execution is modelled by its linearisation, the
total order of completed `generate()` calls in which every successful
compare-and-swap replaces exactly the register value it compared against.
-/

namespace SnowflakeRs

/-- `const NODE_BITS: u8 = 10`. -/
def NODE_BITS : Nat := 10

/-- `const STEP_BITS: u8 = 12`. -/
def STEP_BITS : Nat := 12

/-- `const TIMESTAMP_BITS: u8 = 41`. -/
def TIMESTAMP_BITS : Nat := 41

/-- `const NODE_MAX: u16 = (1 << NODE_BITS) - 1`. -/
def NODE_MAX : Nat := (1 <<< NODE_BITS) - 1

/-- `const STEP_MAX: u16 = (1 << STEP_BITS) - 1`. -/
def STEP_MAX : Nat := (1 <<< STEP_BITS) - 1

/-- `const TIMESTAMP_SHIFT: u8 = NODE_BITS + STEP_BITS`. -/
def TIMESTAMP_SHIFT : Nat := NODE_BITS + STEP_BITS

/-- `const NODE_SHIFT: u8 = STEP_BITS`. -/
def NODE_SHIFT : Nat := STEP_BITS

/-- `const DEFAULT_EPOCH: i64 = 1609459200000`. -/
def DEFAULT_EPOCH : Int := 1609459200000

/-- `pub enum SnowflakeError`. -/
inductive SnowflakeError where
  | ClockMovedBackwards
  | MachineIdOutOfRange
  | SequenceOverflow
deriving DecidableEq

/-- Reinterpretation of an unbounded integer as a signed 64-bit value
(two's-complement wrap-around); applied wherever a Rust `i64` operation can
overflow.  It is the identity on `[-2 ^ 63, 2 ^ 63)`. -/
def wrap64 (x : Int) : Int :=
  (x + 2 ^ 63) % 2 ^ 64 - 2 ^ 63

/-- The Rust cast `x as u64` of an `i64` value: two's-complement
reinterpretation as an unsigned 64-bit value. -/
def toU64 (x : Int) : Nat :=
  (x % 2 ^ 64).toNat

/-- `pub struct Snowflake`: the immutable configuration `node: u16` and
`epoch_ms: i64`, plus the initial contents of the
`last_timestamp_and_sequence: AtomicI64` register (the register itself is
threaded explicitly through the execution model below).  The `start: Instant`
field of the source is never read by the modelled operations and is omitted. -/
structure Snowflake where
  node : Nat
  epoch_ms : Int
  last_timestamp_and_sequence : Int
deriving DecidableEq

/-- `fn encode_timestamp_and_sequence(timestamp: i64, sequence: i64) -> i64`:
`(timestamp << STEP_BITS) | sequence`.  The `i64` shift can overflow and
wraps (`wrap64`); the bitwise or is `Int.lor`, which agrees with the
two's-complement or of `i64` on values in range. -/
def encode_timestamp_and_sequence (timestamp sequence : Int) : Int :=
  Int.lor (wrap64 (timestamp * 2 ^ STEP_BITS)) sequence

/-- `fn decode_timestamp_and_sequence(value: i64) -> (i64, i64)`:
`value >> STEP_BITS` is the arithmetic right shift of `i64`, i.e. floor
division by `2 ^ 12`, which is Euclidean division here since the divisor is
positive; `value & (STEP_MAX as i64)` keeps the low 12 bits, i.e. the
nonnegative remainder modulo `2 ^ 12` of the two's-complement value. -/
def decode_timestamp_and_sequence (value : Int) : Int × Int :=
  (value / 2 ^ STEP_BITS, value % 2 ^ STEP_BITS)

/-- `pub fn new(node: u16, epoch: Option<i64>) -> Result<Self, SnowflakeError>`. -/
def Snowflake.new (node : Nat) (epoch : Option Int) : Except SnowflakeError Snowflake :=
  if node > NODE_MAX then
    .error .MachineIdOutOfRange
  else
    .ok { node := node
          epoch_ms := epoch.getD DEFAULT_EPOCH
          last_timestamp_and_sequence := 0 }

/-- `fn create_id(&self, timestamp: i64, sequence: u16) -> u64`:
`(((timestamp - self.epoch_ms) as u64) << TIMESTAMP_SHIFT)
  | ((self.node as u64) << NODE_SHIFT) | sequence as u64`.
The `i64` subtraction is wrapped by the `as u64` cast (`toU64`); the `u64`
shift wraps modulo `2 ^ 64`; the widening casts of `node` and `sequence` from
`u16` are exact. -/
def Snowflake.create_id (s : Snowflake) (timestamp : Int) (sequence : Nat) : Nat :=
  ((toU64 (timestamp - s.epoch_ms) <<< TIMESTAMP_SHIFT) % 2 ^ 64) |||
    ((s.node <<< NODE_SHIFT) % 2 ^ 64) ||| sequence

/-- `pub fn parse_id(id: u64) -> (u64, u16, u16)`: pure extraction of the
three fields by shifting and masking; the final `as u16` casts truncate
modulo `2 ^ 16`. -/
def Snowflake.parse_id (id : Nat) : Nat × Nat × Nat :=
  ((id >>> TIMESTAMP_SHIFT) &&& ((1 <<< TIMESTAMP_BITS) - 1),
   ((id >>> NODE_SHIFT) &&& ((1 <<< NODE_BITS) - 1)) % 2 ^ 16,
   (id &&& ((1 <<< STEP_BITS) - 1)) % 2 ^ 16)

/-- `fn wait_next_millis(&self, last_timestamp: i64) -> Result<i64, SnowflakeError>`.
The polling loop is modelled over two streams: `clock k` is the value
`self.current_time_millis()` returns at the `k`-th iteration, and `elapsed k`
the value of `start.elapsed().as_millis()` there (`std::thread::yield_now()`
has no observable effect).  `fuel` bounds how many iterations are observed;
`none` means the loop has not returned within `fuel` polls. -/
def wait_next_millis (clock elapsed : Nat → Int) (last_timestamp : Int) :
    Nat → Nat → Option (Except SnowflakeError Int)
  | 0, _ => none
  | fuel + 1, k =>
    let current_timestamp := clock k
    if last_timestamp < current_timestamp then
      some (.ok current_timestamp)
    else if 5000 < elapsed k then
      some (.error .SequenceOverflow)
    else
      wait_next_millis clock elapsed last_timestamp fuel (k + 1)

/-- One iteration of the `loop` in `pub fn generate(&self)`, from decoding the
loaded register value to the chosen `(new_timestamp, new_sequence)` pair or an
early error return.  `current_timestamp` is the clock value read before the
loop, `loaded` the register value this iteration works from, and `wait` stands
for `self.wait_next_millis`.  `(last_sequence + 1) & STEP_MAX as i64` is the
remainder modulo `2 ^ 12` of the two's-complement value. -/
def generate_step (current_timestamp loaded : Int)
    (wait : Int → Except SnowflakeError Int) : Except SnowflakeError (Int × Int) :=
  let last_timestamp := (decode_timestamp_and_sequence loaded).1
  let last_sequence := (decode_timestamp_and_sequence loaded).2
  if current_timestamp < last_timestamp then
    .error .ClockMovedBackwards
  else if current_timestamp = last_timestamp then
    let new_sequence := (last_sequence + 1) % 2 ^ STEP_BITS
    if new_sequence = 0 then
      match wait last_timestamp with
      | .ok t => .ok (t, 0)
      | .error e => .error e
    else
      .ok (current_timestamp, new_sequence)
  else
    .ok (current_timestamp, 0)

/-- A completed `generate()` call whose final iteration works from register
value `loaded`: either an early error return, or the iteration whose
compare-and-swap succeeds — it therefore replaces exactly `loaded` with the
encoded chosen pair and returns `self.create_id(new_timestamp,
new_sequence as u16)`.  Returns the committed register value and the id. -/
def generate_commit (s : Snowflake) (current_timestamp loaded : Int)
    (wait : Int → Except SnowflakeError Int) :
    Except SnowflakeError (Int × Nat) :=
  match generate_step current_timestamp loaded wait with
  | .error e => .error e
  | .ok (t, q) =>
    .ok (encode_timestamp_and_sequence t q, s.create_id t (q % 2 ^ 16).toNat)

/-- One completed `generate()` call in the linearisation of a concurrent
execution: `now` is the clock value the call read and `waitRes` the outcome of
its `wait_next_millis` call, if taken, during its final loop iteration.
Iterations whose compare-and-swap fails retry with the freshly observed
register value and are not recorded; the event captures the final iteration
(the one that returns). -/
structure CallEvent where
  now : Int
  waitRes : Except SnowflakeError Int

/-- Linearised execution of completed `generate()` calls against the shared
register: successful compare-and-swaps on the `AtomicI64` are totally ordered,
and each replaces exactly the value it compared against.  Returns the list of
call outcomes together with the final register value. -/
def run (s : Snowflake) : Int → List CallEvent → List (Except SnowflakeError Nat) × Int
  | st, [] => ([], st)
  | st, ev :: evs =>
    match generate_commit s ev.now st (fun _ => ev.waitRes) with
    | .error e =>
      let rest := run s st evs
      (.error e :: rest.1, rest.2)
    | .ok (st2, id) =>
      let rest := run s st2 evs
      (.ok id :: rest.1, rest.2)

/-- The register values committed by the successful calls of a linearised
execution, in commit order. -/
def commits (s : Snowflake) : Int → List CallEvent → List Int
  | _, [] => []
  | st, ev :: evs =>
    match generate_commit s ev.now st (fun _ => ev.waitRes) with
    | .error _ => commits s st evs
    | .ok (st2, _) => st2 :: commits s st2 evs

/-- Physical validity of one call's clock observations, relative to the
register value `st` its final iteration loaded: a successful
`wait_next_millis last_timestamp` result is a clock reading strictly above
`last_timestamp` (theorem `wait_spec` below), and every clock reading lies in
the window `[lo, hi)`. -/
def GoodEvent (lo hi st : Int) (ev : CallEvent) : Prop :=
  lo ≤ ev.now ∧ ev.now < hi ∧
    ∀ t, ev.waitRes = .ok t →
      (decode_timestamp_and_sequence st).1 < t ∧ lo ≤ t ∧ t < hi

/-- A linearised execution all of whose calls make physically valid clock
observations within the window `[lo, hi)`. -/
def GoodRun (s : Snowflake) (lo hi : Int) : Int → List CallEvent → Prop
  | _, [] => True
  | st, ev :: evs =>
    GoodEvent lo hi st ev ∧
      match generate_commit s ev.now st (fun _ => ev.waitRes) with
      | .error _ => GoodRun s lo hi st evs
      | .ok (st2, _) => GoodRun s lo hi st2 evs

/-- The ids of the successful outcomes of an execution, in order. -/
def successes (rs : List (Except SnowflakeError Nat)) : List Nat :=
  rs.filterMap fun r =>
    match r with
    | .ok id => some id
    | .error _ => none

/-- The errors of the failed outcomes of an execution, in order. -/
def failures (rs : List (Except SnowflakeError Nat)) : List SnowflakeError :=
  rs.filterMap fun r =>
    match r with
    | .ok _ => none
    | .error e => some e

/-- Strict lexicographic order on (timestamp, sequence) pairs. -/
def pairLt (a b : Int × Int) : Prop :=
  a.1 < b.1 ∨ (a.1 = b.1 ∧ a.2 < b.2)

instance (a b : Int × Int) : Decidable (pairLt a b) := by
  unfold pairLt
  infer_instance

/-- A register value inside the window `[lo, hi)` of timestamps: its decoded
timestamp lies in the window. -/
def InWindow (lo hi st : Int) : Prop :=
  lo * 2 ^ 12 ≤ st ∧ st < hi * 2 ^ 12

/-- The id a successful call returns, as a function of the register value it
committed. -/
def idOfState (s : Snowflake) (st : Int) : Nat :=
  s.create_id (st / 2 ^ 12) ((st % 2 ^ 12).toNat)

/-! ## Arithmetic facts about the encoding -/

theorem decode_reconstruct (v : Int) :
    v = (decode_timestamp_and_sequence v).1 * 2 ^ 12 + (decode_timestamp_and_sequence v).2 ∧
      0 ≤ (decode_timestamp_and_sequence v).2 ∧ (decode_timestamp_and_sequence v).2 < 2 ^ 12 := by
  simp only [decode_timestamp_and_sequence, STEP_BITS]
  omega

theorem wrap64_eq {x : Int} (h1 : -(2 ^ 63) ≤ x) (h2 : x < 2 ^ 63) : wrap64 x = x := by
  simp only [wrap64]
  omega

theorem int_lor_ofNat (a b : Nat) : Int.lor (a : Int) (b : Int) = ((a ||| b : Nat) : Int) := rfl

theorem toU64_lt (x : Int) : toU64 x < 2 ^ 64 := by
  simp only [toU64]
  omega

/-- On in-range inputs the register encoding is plain arithmetic. -/
theorem encode_eq (t q : Int) (ht : 0 ≤ t) (ht2 : t < 2 ^ 51)
    (hq : 0 ≤ q) (hq2 : q < 2 ^ 12) :
    encode_timestamp_and_sequence t q = t * 2 ^ 12 + q := by
  obtain ⟨a, rfl⟩ : ∃ a : Nat, t = (a : Int) := ⟨t.toNat, by omega⟩
  obtain ⟨b, rfl⟩ : ∃ b : Nat, q = (b : Int) := ⟨q.toNat, by omega⟩
  have hw : wrap64 ((a : Int) * 2 ^ STEP_BITS) = ((a * 2 ^ 12 : Nat) : Int) := by
    simp only [STEP_BITS]
    rw [wrap64_eq (by push_cast; omega) (by push_cast; omega)]
    push_cast
    ring
  rw [encode_timestamp_and_sequence, hw, int_lor_ofNat]
  have hb : b < 2 ^ 12 := by exact_mod_cast hq2
  rw [mul_comm a (2 ^ 12), ← Nat.mul_add_lt_is_or hb a]
  push_cast
  ring

/-- Decoding inverts encoding on in-range pairs. -/
theorem decode_encode (t q : Int) (ht : 0 ≤ t) (ht2 : t < 2 ^ 51)
    (hq : 0 ≤ q) (hq2 : q < 2 ^ 12) :
    decode_timestamp_and_sequence (encode_timestamp_and_sequence t q) = (t, q) := by
  rw [encode_eq t q ht ht2 hq hq2]
  simp only [decode_timestamp_and_sequence, STEP_BITS]
  have h1 : (t * 2 ^ 12 + q) / 2 ^ 12 = t := by omega
  have h2 : (t * 2 ^ 12 + q) % 2 ^ 12 = q := by omega
  rw [h1, h2]

/-- The or of three values occupying disjoint bit ranges is their sum. -/
theorem lor3_arith (x n q : Nat) (hn : n ≤ 1023) (hq : q ≤ 4095) :
    (x * 2 ^ 22 % 2 ^ 64) ||| (n * 2 ^ 12 % 2 ^ 64) ||| q =
      2 ^ 22 * (x % 2 ^ 42) + n * 2 ^ 12 + q := by
  have h1 : x * 2 ^ 22 % 2 ^ 64 = 2 ^ 22 * (x % 2 ^ 42) := by omega
  have h2 : n * 2 ^ 12 % 2 ^ 64 = n * 2 ^ 12 := by omega
  rw [h1, h2, ← Nat.mul_add_lt_is_or (show n * 2 ^ 12 < 2 ^ 22 by omega),
    show 2 ^ 22 * (x % 2 ^ 42) + n * 2 ^ 12 = 2 ^ 12 * (2 ^ 10 * (x % 2 ^ 42) + n) by ring,
    ← Nat.mul_add_lt_is_or (show q < 2 ^ 12 by omega)]

/-- `create_id` in closed arithmetic form: the timestamp difference is reduced
modulo `2 ^ 42` by the wrapping `u64` shift, and the three fields occupy
disjoint bit ranges when `node` and `sequence` are in range. -/
theorem create_id_arith (s : Snowflake) (t : Int) (q : Nat)
    (hn : s.node ≤ 1023) (hq : q ≤ 4095) :
    s.create_id t q =
      2 ^ 22 * (toU64 (t - s.epoch_ms) % 2 ^ 42) + s.node * 2 ^ 12 + q := by
  have hdef : s.create_id t q =
      (toU64 (t - s.epoch_ms) * 2 ^ 22 % 2 ^ 64) |||
        (s.node * 2 ^ 12 % 2 ^ 64) ||| q := by
    simp only [Snowflake.create_id, TIMESTAMP_SHIFT, NODE_SHIFT, NODE_BITS, STEP_BITS,
      Nat.shiftLeft_eq, Nat.reduceAdd]
  rw [hdef, lor3_arith _ _ _ hn hq]

/-! ## Inversion of one `generate` iteration -/

/-- Case analysis of a successfully chosen pair: a fresh millisecond, a
sequence increment within the current millisecond, or a busy-wait after
sequence exhaustion. -/
theorem generate_step_ok (now loaded : Int) (w : Int → Except SnowflakeError Int)
    (t q : Int) (h : generate_step now loaded w = .ok (t, q)) :
    (loaded / 2 ^ 12 < now ∧ t = now ∧ q = 0) ∨
    (now = loaded / 2 ^ 12 ∧ loaded % 2 ^ 12 < 4095 ∧ t = now ∧ q = loaded % 2 ^ 12 + 1) ∨
    (now = loaded / 2 ^ 12 ∧ loaded % 2 ^ 12 = 4095 ∧
      w (loaded / 2 ^ 12) = .ok t ∧ q = 0) := by
  have hd := decode_reconstruct loaded
  simp only [decode_timestamp_and_sequence, STEP_BITS] at hd
  simp only [generate_step, decode_timestamp_and_sequence, STEP_BITS] at h
  rcases lt_trichotomy now (loaded / 2 ^ 12) with hlt | heq | hgt
  · rw [if_pos hlt] at h
    exact absurd h (by simp)
  · rw [if_neg (by omega), if_pos heq] at h
    by_cases hz : (loaded % 2 ^ 12 + 1) % 2 ^ 12 = 0
    · rw [if_pos hz] at h
      cases hw : w (loaded / 2 ^ 12) with
      | ok u =>
        rw [hw] at h
        simp only [Except.ok.injEq, Prod.mk.injEq] at h
        obtain ⟨h1, h2⟩ := h
        exact Or.inr (Or.inr ⟨heq, by omega, congrArg Except.ok h1, by omega⟩)
      | error e =>
        rw [hw] at h
        exact absurd h (by simp)
    · rw [if_neg hz] at h
      simp only [Except.ok.injEq, Prod.mk.injEq] at h
      obtain ⟨h1, h2⟩ := h
      exact Or.inr (Or.inl ⟨heq, by omega, h1.symm, by omega⟩)
  · rw [if_neg (by omega), if_neg (by omega)] at h
    simp only [Except.ok.injEq, Prod.mk.injEq] at h
    obtain ⟨h1, h2⟩ := h
    exact Or.inl ⟨hgt, h1.symm, h2.symm⟩

/-- Case analysis of an error return: a regressed clock, or a failed
busy-wait after sequence exhaustion. -/
theorem generate_step_error (now loaded : Int) (w : Int → Except SnowflakeError Int)
    (e : SnowflakeError) (h : generate_step now loaded w = .error e) :
    (e = .ClockMovedBackwards ∧ now < loaded / 2 ^ 12) ∨
    (now = loaded / 2 ^ 12 ∧ loaded % 2 ^ 12 = 4095 ∧
      w (loaded / 2 ^ 12) = .error e) := by
  have hd := decode_reconstruct loaded
  simp only [decode_timestamp_and_sequence, STEP_BITS] at hd
  simp only [generate_step, decode_timestamp_and_sequence, STEP_BITS] at h
  rcases lt_trichotomy now (loaded / 2 ^ 12) with hlt | heq | hgt
  · rw [if_pos hlt] at h
    injection h with h
    exact Or.inl ⟨h.symm, hlt⟩
  · rw [if_neg (by omega), if_pos heq] at h
    by_cases hz : (loaded % 2 ^ 12 + 1) % 2 ^ 12 = 0
    · rw [if_pos hz] at h
      cases hw : w (loaded / 2 ^ 12) with
      | ok u =>
        rw [hw] at h
        exact absurd h (by simp)
      | error e2 =>
        rw [hw] at h
        injection h with h
        exact Or.inr ⟨heq, by omega, congrArg Except.error h⟩
    · rw [if_neg hz] at h
      exact absurd h (by simp)
  · rw [if_neg (by omega), if_neg (by omega)] at h
    exact absurd h (by simp)

/-! ## Committed calls advance the register -/

/-- A successful commit replaces the loaded register value with a strictly
greater one that stays inside the clock window, and returns the id determined
by the committed value. -/
theorem commit_advance (s : Snowflake) (lo hi st : Int) (ev : CallEvent)
    (st2 : Int) (id : Nat) (hlo : 0 ≤ lo) (hhi : hi ≤ 2 ^ 51)
    (hg : GoodEvent lo hi st ev)
    (h : generate_commit s ev.now st (fun _ => ev.waitRes) = .ok (st2, id)) :
    st < st2 ∧ InWindow lo hi st2 ∧ id = idOfState s st2 := by
  obtain ⟨hnow1, hnow2, hwait⟩ := hg
  simp only [decode_timestamp_and_sequence, STEP_BITS] at hwait
  cases hstep : generate_step ev.now st (fun _ => ev.waitRes) with
  | error e =>
    rw [generate_commit, hstep] at h
    exact absurd h (by simp)
  | ok tq =>
    obtain ⟨t, q⟩ := tq
    rw [generate_commit, hstep] at h
    simp only [Except.ok.injEq, Prod.mk.injEq] at h
    obtain ⟨hst2, hid⟩ := h
    have hcases := generate_step_ok ev.now st (fun _ => ev.waitRes) t q hstep
    have hrange : lo ≤ t ∧ t < hi ∧ 0 ≤ q ∧ q < 2 ^ 12 ∧
        (st / 2 ^ 12 < t ∨ (t = st / 2 ^ 12 ∧ st % 2 ^ 12 < q)) := by
      rcases hcases with ⟨h1, h2, h3⟩ | ⟨h1, h2, h3, h4⟩ | ⟨h1, h2, h3, h4⟩
      · exact ⟨by omega, by omega, by omega, by omega, by omega⟩
      · refine ⟨by omega, by omega, by omega, by omega, by omega⟩
      · obtain ⟨hw1, hw2, hw3⟩ := hwait t h3
        exact ⟨hw2, hw3, by omega, by omega, by omega⟩
    obtain ⟨ht1, ht2, hq1, hq2, hadv⟩ := hrange
    have henc : st2 = t * 2 ^ 12 + q := by
      rw [← hst2, encode_eq t q (by omega) (by omega) hq1 hq2]
    have hq16 : q % 2 ^ 16 = q := by omega
    have hdiv : st2 / 2 ^ 12 = t := by omega
    have hmod : st2 % 2 ^ 12 = q := by omega
    refine ⟨by omega, ⟨by omega, by omega⟩, ?_⟩
    rw [← hid, idOfState, hdiv, hmod, hq16]

/-- Outcome lists of an execution, componentwise. -/
theorem run_cons (s : Snowflake) (st : Int) (ev : CallEvent) (evs : List CallEvent) :
    run s st (ev :: evs) =
      match generate_commit s ev.now st (fun _ => ev.waitRes) with
      | .error e => ((.error e) :: (run s st evs).1, (run s st evs).2)
      | .ok (st2, id) => ((.ok id) :: (run s st2 evs).1, (run s st2 evs).2) := by
  rw [run]

/-- The combined invariant of a physically valid linearised execution: every
outcome is accounted for, the successful ids are exactly the ids of the
committed register values, and those values form a strictly increasing chain
inside the clock window. -/
theorem run_invariant (s : Snowflake) (lo hi : Int) (hlo : 0 ≤ lo) (hhi : hi ≤ 2 ^ 51) :
    ∀ (evs : List CallEvent) (st : Int), GoodRun s lo hi st evs →
      (run s st evs).1.length = evs.length ∧
      successes (run s st evs).1 = (commits s st evs).map (idOfState s) ∧
      (successes (run s st evs).1).length + (failures (run s st evs).1).length = evs.length ∧
      List.Chain' (· < ·) (st :: commits s st evs) ∧
      ∀ c ∈ commits s st evs, InWindow lo hi c := by
  intro evs
  induction evs with
  | nil =>
    intro st _
    simp [run, commits, successes, failures]
  | cons ev evs ih =>
    intro st hrun
    rw [GoodRun] at hrun
    obtain ⟨hg, hrest⟩ := hrun
    rw [run_cons, commits]
    cases hc : generate_commit s ev.now st (fun _ => ev.waitRes) with
    | error e =>
      rw [hc] at hrest
      obtain ⟨ih1, ih2, ih3, ih4, ih5⟩ := ih st hrest
      refine ⟨by simpa using ih1, by simpa [successes] using ih2, ?_, ih4, ih5⟩
      simp only [successes, failures, List.filterMap_cons] at ih3 ⊢
      simp only [List.length_cons]
      omega
    | ok p =>
      obtain ⟨st2, id⟩ := p
      rw [hc] at hrest
      obtain ⟨hadv, hwin, hid⟩ := commit_advance s lo hi st ev st2 id hlo hhi hg hc
      obtain ⟨ih1, ih2, ih3, ih4, ih5⟩ := ih st2 hrest
      refine ⟨by simpa using ih1, ?_, ?_, ?_, ?_⟩
      · simp only [successes, List.filterMap_cons] at ih2 ⊢
        simp only [List.map_cons]
        rw [← hid]
        simpa [successes] using congrArg (List.cons id) ih2
      · simp only [successes, failures, List.filterMap_cons] at ih3 ⊢
        simp only [List.length_cons]
        omega
      · exact List.Chain'.cons hadv ih4
      · intro c hc2
        rcases List.mem_cons.mp hc2 with rfl | hmem
        · exact hwin
        · exact ih5 c hmem

/-- Ids of committed register values inside a window of width at most
`2 ^ 41` milliseconds are injective. -/
theorem idOfState_ne (s : Snowflake) (lo hi : Int) (hn : s.node ≤ 1023)
    (hwin : hi ≤ lo + 2 ^ 41) (a b : Int)
    (ha : InWindow lo hi a) (hb : InWindow lo hi b) (hab : a < b) :
    idOfState s a ≠ idOfState s b := by
  obtain ⟨ha1, ha2⟩ := ha
  obtain ⟨hb1, hb2⟩ := hb
  rw [idOfState, idOfState, create_id_arith s _ _ hn (by omega),
    create_id_arith s _ _ hn (by omega)]
  simp only [toU64]
  omega

/-- Mapping `idOfState` over a strictly increasing list of in-window register
values yields distinct ids. -/
theorem nodup_map_idOfState (s : Snowflake) (lo hi : Int) (hn : s.node ≤ 1023)
    (hwin : hi ≤ lo + 2 ^ 41) :
    ∀ (l : List Int), l.Pairwise (· < ·) → (∀ c ∈ l, InWindow lo hi c) →
      (l.map (idOfState s)).Nodup := by
  intro l
  induction l with
  | nil =>
    intro _ _
    simp
  | cons c cs ih =>
    intro hp hmem
    rw [List.pairwise_cons] at hp
    obtain ⟨hlt, hp2⟩ := hp
    rw [List.map_cons, List.nodup_cons]
    refine ⟨?_, ih hp2 fun x hx => hmem x (List.mem_cons_of_mem c hx)⟩
    intro hin
    rcases List.mem_map.mp hin with ⟨d, hd, hde⟩
    exact idOfState_ne s lo hi hn hwin c d
      (hmem c (List.mem_cons_self c cs))
      (hmem d (List.mem_cons_of_mem c hd)) (hlt d hd) hde.symm

/-- `parse_id` in arithmetic form. -/
theorem parse_id_arith (id : Nat) :
    Snowflake.parse_id id =
      (id / 2 ^ 22 % 2 ^ 41, id / 2 ^ 12 % 2 ^ 10, id % 2 ^ 12) := by
  show (id >>> 22 &&& (1 <<< 41 - 1),
      (id >>> 12 &&& (1 <<< 10 - 1)) % 2 ^ 16,
      (id &&& (1 <<< 12 - 1)) % 2 ^ 16) = _
  have h1 : id >>> 22 &&& (1 <<< 41 - 1) = id / 2 ^ 22 % 2 ^ 41 := by
    rw [Nat.shiftRight_eq_div_pow, Nat.shiftLeft_eq, one_mul,
      Nat.and_pow_two_sub_one_eq_mod]
  have h2 : id >>> 12 &&& (1 <<< 10 - 1) = id / 2 ^ 12 % 2 ^ 10 := by
    rw [Nat.shiftRight_eq_div_pow, Nat.shiftLeft_eq, one_mul,
      Nat.and_pow_two_sub_one_eq_mod]
  have h3 : id &&& (1 <<< 12 - 1) = id % 2 ^ 12 := by
    rw [Nat.shiftLeft_eq, one_mul, Nat.and_pow_two_sub_one_eq_mod]
  rw [h1, h2, h3]
  have h4 : id / 2 ^ 12 % 2 ^ 10 % 2 ^ 16 = id / 2 ^ 12 % 2 ^ 10 := by omega
  have h5 : id % 2 ^ 12 % 2 ^ 16 = id % 2 ^ 12 := by omega
  rw [h4, h5]

/-! ## Claim theorems -/

/-- C7: `new(node, epoch)` fails with `MachineIdOutOfRange` exactly when
`node > 1023`; on success the generator carries the given node, the supplied
epoch — or the default `1609459200000` when none is supplied — and a
zero-initialized register.  In particular `new 1024 none` fails while
`new 1023 none` and `new 0 none` succeed. -/
theorem new_validates_node (node : Nat) (epoch : Option Int) :
    (Snowflake.new node epoch = .error .MachineIdOutOfRange ↔ 1023 < node) ∧
    (∀ e, node ≤ 1023 → epoch = some e →
      Snowflake.new node epoch = .ok ⟨node, e, 0⟩) ∧
    (node ≤ 1023 → epoch = none →
      Snowflake.new node epoch = .ok ⟨node, 1609459200000, 0⟩) := by
  have hmax : NODE_MAX = 1023 := rfl
  refine ⟨⟨?_, ?_⟩, ?_, ?_⟩
  · intro h
    by_contra hc
    rw [Snowflake.new, hmax, if_neg (by omega)] at h
    exact absurd h (by simp)
  · intro h
    rw [Snowflake.new, hmax, if_pos (by omega)]
  · intro e h he
    subst he
    rw [Snowflake.new, hmax, if_neg (by omega)]
    rfl
  · intro h he
    subst he
    rw [Snowflake.new, hmax, if_neg (by omega)]
    rfl

/-- C7 witness: the boundary instances `1024`, `1023` and `0`. -/
theorem new_validates_node_witness :
    Snowflake.new 1024 none = .error .MachineIdOutOfRange ∧
    Snowflake.new 1023 none = .ok ⟨1023, 1609459200000, 0⟩ ∧
    Snowflake.new 0 none = .ok ⟨0, 1609459200000, 0⟩ :=
  ⟨(new_validates_node 1024 none).1.mpr (by omega),
   (new_validates_node 1023 none).2.2 (by omega) rfl,
   (new_validates_node 0 none).2.2 (by omega) rfl⟩

/-- C8: `parse_id` is a pure function of `id` alone (it is defined without
reference to any generator state) and extracts exactly the 41-bit timestamp
above the 10-bit node above the 12-bit sequence:
`((id >> 22) & (2^41 - 1), (id >> 12) & 1023, id & 4095)`, stated here in
arithmetic form. -/
theorem parse_id_pure_extraction (id : Nat) :
    Snowflake.parse_id id =
      (id / 2 ^ 22 % 2 ^ 41, id / 2 ^ 12 % 2 ^ 10, id % 2 ^ 12) :=
  parse_id_arith id

/-- C9: whatever the 64-bit input, the components `parse_id` returns are
within field range: timestamp below `2 ^ 41`, node at most `1023`, sequence
at most `4095`. -/
theorem parse_id_in_range (id : Nat) :
    (Snowflake.parse_id id).1 < 2 ^ 41 ∧
    (Snowflake.parse_id id).2.1 ≤ 1023 ∧
    (Snowflake.parse_id id).2.2 ≤ 4095 := by
  rw [parse_id_arith]
  refine ⟨?_, ?_, ?_⟩ <;> simp <;> omega

/-- C10: `create_id` performs no range check on the timestamp difference:
for every timestamp (including differences that are negative or at least
`2 ^ 41`), node and sequence still round-trip exactly through `parse_id`,
while the timestamp field comes back reduced modulo `2 ^ 41` — out-of-range
differences wrap silently instead of producing an error. -/
theorem create_id_wraps_timestamp (s : Snowflake) (t : Int) (q : Nat)
    (hn : s.node ≤ 1023) (hq : q ≤ 4095) :
    Snowflake.parse_id (s.create_id t q) =
      (((t - s.epoch_ms) % 2 ^ 41).toNat, s.node, q) := by
  rw [create_id_arith s t q hn hq, parse_id_arith]
  simp only [toU64, Prod.mk.injEq]
  refine ⟨by omega, by omega, by omega⟩

/-- C10 witness: a timestamp far below the epoch still round-trips its node
and sequence, with the timestamp field wrapped. -/
theorem create_id_wraps_timestamp_witness :
    Snowflake.parse_id (Snowflake.create_id ⟨3, 1609459200000, 0⟩ 5 7) =
      (((5 - 1609459200000 : Int) % 2 ^ 41).toNat, 3, 7) :=
  create_id_wraps_timestamp ⟨3, 1609459200000, 0⟩ 5 7 (by decide) (by decide)

/-- C5: when the clock reading is strictly behind the decoded last committed
timestamp, the call fails immediately with `ClockMovedBackwards`, and the
register is left unchanged: the remaining calls of the execution run against
the same register value. -/
theorem clock_regression_fails_immediately (s : Snowflake) (ev : CallEvent)
    (st : Int) (evs : List CallEvent)
    (h : ev.now < (decode_timestamp_and_sequence st).1) :
    generate_commit s ev.now st (fun _ => ev.waitRes) = .error .ClockMovedBackwards ∧
    run s st (ev :: evs) =
      ((.error .ClockMovedBackwards) :: (run s st evs).1, (run s st evs).2) := by
  have hstep : generate_step ev.now st (fun _ => ev.waitRes) = .error .ClockMovedBackwards := by
    simp only [generate_step]
    rw [if_pos h]
  have hc : generate_commit s ev.now st (fun _ => ev.waitRes) = .error .ClockMovedBackwards := by
    rw [generate_commit, hstep]
  refine ⟨hc, ?_⟩
  rw [run_cons, hc]

/-- C5 witness: register holding millisecond 10, clock reading 5. -/
theorem clock_regression_fails_immediately_witness :
    generate_commit ⟨1, 0, 0⟩ 5 40960 (fun _ => Except.error .SequenceOverflow) =
      .error .ClockMovedBackwards ∧
    run ⟨1, 0, 0⟩ 40960 [⟨5, Except.error .SequenceOverflow⟩] =
      ((.error .ClockMovedBackwards) ::
          (run ⟨1, 0, 0⟩ 40960 []).1, (run ⟨1, 0, 0⟩ 40960 []).2) :=
  clock_regression_fails_immediately ⟨1, 0, 0⟩ ⟨5, Except.error .SequenceOverflow⟩
    40960 [] (by decide)

/-- C3: the decision table of one `generate` iteration.  When the clock
equals the decoded last timestamp and the 12-bit increment does not wrap, the
chosen pair is `(last_ts, last_seq + 1)`; when the increment wraps (last
sequence `4095`), the chosen pair is `(t, 0)` for the busy-wait result `t`,
which is strictly above `last_ts`; when the clock is ahead, the chosen pair
is `(now, 0)`. -/
theorem generate_decision_table (now loaded : Int)
    (w : Int → Except SnowflakeError Int) :
    (now = (decode_timestamp_and_sequence loaded).1 →
      ((decode_timestamp_and_sequence loaded).2 + 1) % 2 ^ 12 ≠ 0 →
      generate_step now loaded w =
        .ok ((decode_timestamp_and_sequence loaded).1,
          (decode_timestamp_and_sequence loaded).2 + 1)) ∧
    (now = (decode_timestamp_and_sequence loaded).1 →
      (decode_timestamp_and_sequence loaded).2 = 4095 →
      ∀ t, (∀ u, w (decode_timestamp_and_sequence loaded).1 = .ok u →
          (decode_timestamp_and_sequence loaded).1 < u) →
        w (decode_timestamp_and_sequence loaded).1 = .ok t →
        generate_step now loaded w = .ok (t, 0) ∧
          (decode_timestamp_and_sequence loaded).1 < t) ∧
    ((decode_timestamp_and_sequence loaded).1 < now →
      generate_step now loaded w = .ok (now, 0)) := by
  have hd := decode_reconstruct loaded
  simp only [decode_timestamp_and_sequence, STEP_BITS] at hd ⊢
  refine ⟨?_, ?_, ?_⟩
  · intro h1 h2
    simp only [generate_step, decode_timestamp_and_sequence, STEP_BITS]
    rw [if_neg (by omega), if_pos h1, if_neg h2]
    simp only [Except.ok.injEq, Prod.mk.injEq]
    exact ⟨h1, by omega⟩
  · intro h1 h2 t hw hwt
    refine ⟨?_, hw t hwt⟩
    simp only [generate_step, decode_timestamp_and_sequence, STEP_BITS]
    rw [if_neg (by omega), if_pos h1, if_pos (by omega), hwt]
  · intro h1
    simp only [generate_step, decode_timestamp_and_sequence, STEP_BITS]
    rw [if_neg (by omega), if_neg (by omega)]

/-- C3 witness: the three rows of the decision table at concrete inputs, with
the register decoding to the pair `(10, 3)` or `(10, 4095)`. -/
theorem generate_decision_table_witness :
    generate_step 10 40963 (fun _ => Except.ok 11) = .ok (10, 4) ∧
    generate_step 10 45055 (fun _ => Except.ok 11) = .ok (11, 0) ∧
    generate_step 11 40963 (fun _ => Except.ok 11) = .ok (11, 0) := by
  refine ⟨?_, ?_, ?_⟩
  · have h := (generate_decision_table 10 40963 (fun _ => Except.ok 11)).1
      (by decide) (by decide)
    simpa using h
  · have h := (generate_decision_table 10 45055 (fun _ => Except.ok 11)).2.1
      (by decide) (by decide) 11
      (fun u hu => by injection hu with hu2; rw [← hu2]; decide) rfl
    exact h.1
  · exact (generate_decision_table 11 40963 (fun _ => Except.ok 11)).2.2 (by decide)

/-- C6: the busy-wait polls the clock and returns the first reading strictly
above `last_timestamp`; when more than 5000 elapsed milliseconds are observed
before the clock advances it fails, necessarily with `SequenceOverflow`; and
`SequenceOverflow` arises only from the busy-wait — an erroring generation
step surfaces it only as its busy-wait result, and construction never
produces it. -/
theorem wait_next_millis_spec (clock elapsed : Nat → Int) (last : Int) :
    (∀ fuel k t, wait_next_millis clock elapsed last fuel k = some (.ok t) →
      last < t ∧ ∃ i, k ≤ i ∧ clock i = t ∧
        ∀ j, k ≤ j → j < i → clock j ≤ last) ∧
    (∀ fuel k r, wait_next_millis clock elapsed last fuel k = some (.error r) →
      r = .SequenceOverflow ∧ ∃ i, k ≤ i ∧ 5000 < elapsed i ∧
        ∀ j, k ≤ j → j ≤ i → clock j ≤ last) ∧
    (∀ now loaded (w : Int → Except SnowflakeError Int),
      generate_step now loaded w = .error .SequenceOverflow →
      w (decode_timestamp_and_sequence loaded).1 = .error .SequenceOverflow) ∧
    (∀ node epoch, Snowflake.new node epoch ≠ .error .SequenceOverflow) := by
  refine ⟨?_, ?_, ?_, ?_⟩
  · intro fuel
    induction fuel with
    | zero =>
      intro k t h
      exact absurd h (by simp [wait_next_millis])
    | succ n ih =>
      intro k t h
      rw [wait_next_millis] at h
      by_cases h1 : last < clock k
      · rw [if_pos h1] at h
        simp only [Option.some.injEq, Except.ok.injEq] at h
        subst h
        exact ⟨h1, k, le_refl k, rfl, fun j hj1 hj2 => by omega⟩
      · rw [if_neg h1] at h
        by_cases h2 : 5000 < elapsed k
        · rw [if_pos h2] at h
          exact absurd h (by simp)
        · rw [if_neg h2] at h
          obtain ⟨hlt, i, hik, hit, hjs⟩ := ih (k + 1) t h
          refine ⟨hlt, i, by omega, hit, ?_⟩
          intro j hj1 hj2
          rcases eq_or_lt_of_le hj1 with rfl | hj
          · omega
          · exact hjs j (by omega) hj2
  · intro fuel
    induction fuel with
    | zero =>
      intro k r h
      exact absurd h (by simp [wait_next_millis])
    | succ n ih =>
      intro k r h
      rw [wait_next_millis] at h
      by_cases h1 : last < clock k
      · rw [if_pos h1] at h
        exact absurd h (by simp)
      · rw [if_neg h1] at h
        by_cases h2 : 5000 < elapsed k
        · rw [if_pos h2] at h
          simp only [Option.some.injEq, Except.error.injEq] at h
          refine ⟨h.symm, k, le_refl k, h2, ?_⟩
          intro j hj1 hj2
          have hjk : j = k := by omega
          subst hjk
          omega
        · rw [if_neg h2] at h
          obtain ⟨hr, i, hik, hie, hjs⟩ := ih (k + 1) r h
          refine ⟨hr, i, by omega, hie, ?_⟩
          intro j hj1 hj2
          rcases eq_or_lt_of_le hj1 with rfl | hj
          · omega
          · exact hjs j (by omega) hj2
  · intro now loaded w h
    rcases generate_step_error now loaded w _ h with ⟨he, _⟩ | ⟨_, _, hw⟩
    · exact absurd he (by simp)
    · simpa [decode_timestamp_and_sequence, STEP_BITS] using hw
  · intro node epoch
    rw [Snowflake.new]
    split <;> simp

/-- C6 witness: with clock readings `0, 1, 2, …` and no elapsed time, the
busy-wait past `last = 5` returns the first strictly greater reading, `6`. -/
theorem wait_next_millis_spec_witness :
    5 < (6 : Int) ∧ ∃ i, 0 ≤ i ∧ (fun j : Nat => (j : Int)) i = 6 ∧
      ∀ j, 0 ≤ j → j < i → (fun j : Nat => (j : Int)) j ≤ 5 :=
  (wait_next_millis_spec (fun j : Nat => (j : Int)) (fun _ => 0) 5).1 10 0 6 rfl

/-- Decoding turns the strict order on register values into the strict
lexicographic order on pairs. -/
theorem pairLt_decode (a b : Int) (h : a < b) :
    pairLt (decode_timestamp_and_sequence a) (decode_timestamp_and_sequence b) := by
  simp only [pairLt, decode_timestamp_and_sequence, STEP_BITS]
  omega

/-- Decoding is injective on register values. -/
theorem decode_ne (a b : Int) (h : a ≠ b) :
    decode_timestamp_and_sequence a ≠ decode_timestamp_and_sequence b := by
  simp only [decode_timestamp_and_sequence, STEP_BITS, Ne, Prod.mk.injEq, not_and]
  intro h1 h2
  exact h (by omega)

/-- C2: an iteration that chooses a pair (and whose compare-and-swap can
therefore commit it over the value `loaded` it decoded) chooses a pair
strictly above the decoded `(last_timestamp, last_sequence)` in lexicographic
order — given that the busy-wait only ever returns readings above the last
timestamp; consequently, in any physically valid linearised execution the
committed register values decode to strictly increasing, pairwise distinct
pairs. -/
theorem committed_pairs_increase :
    (∀ now loaded (w : Int → Except SnowflakeError Int) (t q : Int),
      (∀ u, w (decode_timestamp_and_sequence loaded).1 = .ok u →
        (decode_timestamp_and_sequence loaded).1 < u) →
      generate_step now loaded w = .ok (t, q) →
      pairLt (decode_timestamp_and_sequence loaded) (t, q)) ∧
    (∀ (s : Snowflake) (lo hi st : Int) (evs : List CallEvent),
      0 ≤ lo → hi ≤ 2 ^ 51 → GoodRun s lo hi st evs →
      List.Chain' pairLt
        ((st :: commits s st evs).map decode_timestamp_and_sequence) ∧
      List.Pairwise (fun a b => a ≠ b)
        ((commits s st evs).map decode_timestamp_and_sequence)) := by
  constructor
  · intro now loaded w t q hw hstep
    have hd := decode_reconstruct loaded
    simp only [decode_timestamp_and_sequence, STEP_BITS] at hd hw ⊢
    simp only [pairLt]
    rcases generate_step_ok now loaded w t q hstep with
      ⟨h1, h2, h3⟩ | ⟨h1, h2, h3, h4⟩ | ⟨h1, h2, h3, h4⟩
    · omega
    · omega
    · have := hw t h3
      omega
  · intro s lo hi st evs hlo hhi hrun
    obtain ⟨_, _, _, h4, _⟩ := run_invariant s lo hi hlo hhi evs st hrun
    constructor
    · rw [List.chain'_map]
      exact h4.imp fun a b hab => pairLt_decode a b hab
    · rw [List.pairwise_map]
      have hpw : (commits s st evs).Pairwise (· < ·) :=
        List.chain'_iff_pairwise.mp h4.tail
      exact hpw.imp fun hab => decode_ne _ _ (by omega)

/-- C2 witness: a fresh-millisecond step over the register value `40963`
(decoding to the pair `(10, 3)`) chooses a lexicographically greater pair. -/
theorem committed_pairs_increase_witness :
    pairLt (decode_timestamp_and_sequence 40963) (11, 0) :=
  committed_pairs_increase.1 11 40963 (fun _ => Except.ok 12) 11 0
    (fun u hu => by injection hu with hu2; rw [← hu2]; decide) rfl

/-- C1: in any physically valid linearised execution of `N * M` completed
calls against one generator with in-range node — the clock readings confined
to a window spanning at most `2 ^ 41` milliseconds — the successful ids are
pairwise distinct, and the number of distinct successful ids plus the number
of errors is exactly `N * M`. -/
theorem concurrent_uniqueness (s : Snowflake) (lo hi : Int) (N M : Nat)
    (evs : List CallEvent) (hn : s.node ≤ 1023) (hlo : 0 ≤ lo)
    (hwidth : hi ≤ lo + 2 ^ 41) (hhi : hi ≤ 2 ^ 51)
    (hlen : evs.length = N * M) (hrun : GoodRun s lo hi 0 evs) :
    (successes (run s 0 evs).1).Nodup ∧
    (successes (run s 0 evs).1).dedup.length +
      (failures (run s 0 evs).1).length = N * M := by
  obtain ⟨h1, h2, h3, h4, h5⟩ := run_invariant s lo hi hlo hhi evs 0 hrun
  have hchain : (commits s 0 evs).Pairwise (· < ·) :=
    List.chain'_iff_pairwise.mp h4.tail
  have hnodup : (successes (run s 0 evs).1).Nodup := by
    rw [h2]
    exact nodup_map_idOfState s lo hi hn hwidth _ hchain h5
  refine ⟨hnodup, ?_⟩
  rw [List.Nodup.dedup hnodup]
  omega

/-- C1 witness: two calls at clock readings 5 and 6 from register 0 — two
distinct successful ids and no errors. -/
theorem concurrent_uniqueness_witness :
    (successes (run ⟨1, 0, 0⟩ 0
        [⟨5, Except.error .SequenceOverflow⟩,
         ⟨6, Except.error .SequenceOverflow⟩]).1).Nodup ∧
    (successes (run ⟨1, 0, 0⟩ 0
        [⟨5, Except.error .SequenceOverflow⟩,
         ⟨6, Except.error .SequenceOverflow⟩]).1).dedup.length +
      (failures (run ⟨1, 0, 0⟩ 0
        [⟨5, Except.error .SequenceOverflow⟩,
         ⟨6, Except.error .SequenceOverflow⟩]).1).length = 2 * 1 :=
  concurrent_uniqueness ⟨1, 0, 0⟩ 0 (2 ^ 41) 2 1
    [⟨5, Except.error .SequenceOverflow⟩, ⟨6, Except.error .SequenceOverflow⟩]
    (by decide) (by decide) (by decide) (by decide) rfl
    ⟨⟨by decide, by decide, fun t h => nomatch h⟩,
     ⟨by decide, by decide, fun t h => nomatch h⟩, trivial⟩

/-- The or of three values in disjoint bit ranges, without wrap-around. -/
theorem lor3_arith_small (x n q : Nat) (_hx : x < 2 ^ 41) (hn : n ≤ 1023)
    (hq : q ≤ 4095) :
    x <<< 22 ||| n <<< 12 ||| q = x * 2 ^ 22 + n * 2 ^ 12 + q := by
  rw [Nat.shiftLeft_eq, Nat.shiftLeft_eq,
    show x * 2 ^ 22 = 2 ^ 22 * x by ring,
    ← Nat.mul_add_lt_is_or (show n * 2 ^ 12 < 2 ^ 22 by omega),
    show 2 ^ 22 * x + n * 2 ^ 12 = 2 ^ 12 * (2 ^ 10 * x + n) by ring,
    ← Nat.mul_add_lt_is_or (show q < 2 ^ 12 by omega)]

/-- C4 (amended): a successful `generate` call on a generator with in-range
node, whose committed pair is `(t, q)`, returns — provided the committed
timestamp difference `t - epoch_ms` lies in `[0, 2 ^ 41)` — exactly
`((t - epoch_ms) << 22) | (node << 12) | q`, and `parse_id` recovers the
triple `(t - epoch_ms, node, q)`, so adding back the epoch recovers the
originating wall-clock millisecond. -/
theorem generate_roundtrip (s : Snowflake) (now loaded : Int)
    (w : Int → Except SnowflakeError Int) (t q st2 : Int) (id : Nat)
    (hn : s.node ≤ 1023)
    (hstep : generate_step now loaded w = .ok (t, q))
    (hcommit : generate_commit s now loaded w = .ok (st2, id))
    (ht1 : s.epoch_ms ≤ t) (ht2 : t - s.epoch_ms < 2 ^ 41) :
    id = (t - s.epoch_ms).toNat <<< 22 ||| s.node <<< 12 ||| q.toNat ∧
    Snowflake.parse_id id = ((t - s.epoch_ms).toNat, s.node, q.toNat) := by
  have hd := decode_reconstruct loaded
  have hq : 0 ≤ q ∧ q < 2 ^ 12 := by
    rcases generate_step_ok now loaded w t q hstep with
      ⟨_, _, h3⟩ | ⟨_, _, _, h4⟩ | ⟨_, _, _, h4⟩ <;> omega
  rw [generate_commit, hstep] at hcommit
  simp only [Except.ok.injEq, Prod.mk.injEq] at hcommit
  obtain ⟨_, hid⟩ := hcommit
  have hq16 : q % 2 ^ 16 = q := by omega
  rw [hq16] at hid
  have harith : id = (t - s.epoch_ms).toNat * 2 ^ 22 + s.node * 2 ^ 12 + q.toNat := by
    rw [← hid, create_id_arith s t q.toNat hn (by omega)]
    simp only [toU64]
    omega
  constructor
  · rw [harith, lor3_arith_small _ _ _ (by omega) hn (by omega)]
  · rw [harith, parse_id_arith]
    simp only [Prod.mk.injEq]
    refine ⟨by omega, by omega, by omega⟩

/-- C4 witness: node 1, epoch 0, a fresh-millisecond commit at clock 5. -/
theorem generate_roundtrip_witness :
    (20975616 : Nat) =
      ((5 : Int) - 0).toNat <<< 22 ||| 1 <<< 12 ||| (0 : Int).toNat ∧
    Snowflake.parse_id 20975616 = (((5 : Int) - 0).toNat, 1, (0 : Int).toNat) :=
  generate_roundtrip ⟨1, 0, 0⟩ 5 0 (fun _ => Except.error .SequenceOverflow)
    5 0 20480 20975616 (by decide) rfl rfl (by decide) (by decide)

/-- C4 counterexample: on the generator `new 0 (some (2 ^ 50))` — an epoch
in the future of the clock reading `1760227200000` — a call succeeds, but the
parsed timestamp field plus the epoch does not recover the originating
wall-clock millisecond: the unchecked difference wrapped. -/
theorem roundtrip_failure :
    Snowflake.new 0 (some (2 ^ 50)) = .ok ⟨0, 2 ^ 50, 0⟩ ∧
    generate_commit ⟨0, 2 ^ 50, 0⟩ 1760227200000 0
        (fun _ => Except.error .SequenceOverflow) =
      .ok (7209890611200000, 7382927985868800000) ∧
    ((Snowflake.parse_id 7382927985868800000).1 : Int) + 2 ^ 50 ≠ 1760227200000 := by
  refine ⟨rfl, rfl, by decide⟩

end SnowflakeRs
